import Mathlib

/-!
# Verification of the freqtrade Paperbroker / RateLimiter core

Shallow embedding of the trading-simulator core of this repository:

* `freqtrade/enums/instrumenttype.py`   — `InstrumentType.from_symbol` and friends
* `freqtrade/data/lot_size_manager.py`  — `LotSizeManager.get_lot_size`
* `freqtrade/exchange/paperbroker.py`   — `Paperbroker` (price simulation, ticker,
  OHLCV from CSV, resampling, order creation/cancellation, ledgers)
* `freqtrade/exchange/rate_limiter.py`  — `RateLimiter.wait_if_needed`

Modelling conventions used throughout:

* Python floats are modelled as exact rationals (`ℚ`); every quantity in the
  claims is produced by +, -, *, / on decimal constants, so the rational
  semantics is the intended real-number semantics of the code.
* Millisecond timestamps are `ℕ`.
* `uuid.uuid4()` order ids are modelled by a fresh-`ℕ` counter in the state
  (only freshness of ids is ever relevant).
* Calls to `random.uniform(..)` and `datetime.now()` are modelled by an
  explicit `Oracle` argument carrying the drawn values / current time.
* `time.sleep(w)` in the rate limiter is modelled as advancing time by
  exactly `w`.
* Python dicts are insertion-ordered association lists.
* A Python function that raises is modelled as returning `Except` together
  with the state as mutated up to the point of the raise.
-/

namespace Freqtrade

/-! ## Generic association-list dictionaries (Python `dict`) -/

/-- Lookup in an insertion-ordered association list (`d[k]` / `k in d`). -/
def alookup {α β : Type} [DecidableEq α] (k : α) : List (α × β) → Option β
  | [] => none
  | (k', v) :: rest => if k = k' then some v else alookup k rest

/-- `d[k] = v`: overwrite in place if the key exists, else append (Python
dicts keep insertion order). -/
def aset {α β : Type} [DecidableEq α] (k : α) (v : β) : List (α × β) → List (α × β)
  | [] => [(k, v)]
  | (k', v') :: rest => if k = k' then (k, v) :: rest else (k', v') :: aset k v rest

/-- `del d[k]` (no-op when absent, the code only deletes after a membership
test). -/
def adel {α β : Type} [DecidableEq α] (k : α) : List (α × β) → List (α × β)
  | [] => []
  | (k', v') :: rest => if k = k' then rest else (k', v') :: adel k rest

/-! ## Python numeric helpers -/

/-- Python `int(q)` on a float: truncation toward zero. -/
def pyInt (q : ℚ) : ℤ := if 0 ≤ q then ⌊q⌋ else -⌊-q⌋

/-- Python `a % b` on floats with `b > 0` (the only use sites have a positive
lot size): `a - b * floor (a / b)`. -/
def pyFmod (a b : ℚ) : ℚ := a - b * ⌊a / b⌋

/-! ## String helpers (on `List Char`) -/

/-- `needle` is a prefix of `hay`. -/
def startsWithL : List Char → List Char → Bool
  | [], _ => true
  | _ :: _, [] => false
  | a :: as, b :: bs => a = b && startsWithL as bs

/-- Python `needle in hay` (substring containment). -/
def containsL (needle : List Char) : List Char → Bool
  | [] => startsWithL needle []
  | h@(_ :: t) => startsWithL needle h || containsL needle t

/-- Python `s.endswith(suffix)`. -/
def endsWithL (suffix l : List Char) : Bool :=
  startsWithL suffix.reverse l.reverse

/-- Substring test on `String`s (Python `a in b`). -/
def strContains (hay needle : String) : Bool :=
  containsL needle.data hay.data

/-- Suffix test on `String`s (Python `s.endswith(x)`). -/
def strEndsWith (s suffix : String) : Bool :=
  endsWithL suffix.data s.data

/-- Python `s.upper()` (all symbols in this code base are ASCII, where
`Char.toUpper` agrees with Python; implemented on the character list so
that it evaluates by kernel reduction). -/
def strUpper (s : String) : String := String.mk (s.data.map Char.toUpper)

/-- Python `s.split('/')[0]`: the characters before the first `/`. -/
def takeBeforeSlash (s : String) : String :=
  String.mk (s.data.takeWhile (fun c => c != '/'))

/-! ## `freqtrade/enums/instrumenttype.py` -/

/-- `InstrumentType`. -/
inductive InstrumentType where
  | EQUITY
  | FUTURES
  | CALL_OPTION
  | PUT_OPTION
  | INDEX
  deriving DecidableEq, Repr

namespace InstrumentType

/-- Month tokens searched for by `InstrumentType.from_symbol`. -/
def monthTokens : List String :=
  ["JAN", "FEB", "MAR", "APR", "MAY", "JUN", "JUL", "AUG", "SEP", "OCT", "NOV", "DEC"]

/-- Index tokens searched for by `InstrumentType.from_symbol`. -/
def indexTokens : List String :=
  ["NIFTY", "BANKNIFTY", "FINNIFTY", "MIDCPNIFTY", "SENSEX"]

/-- `InstrumentType.from_symbol`: classify a symbol by its shape. -/
def fromSymbol (symbol : String) : InstrumentType :=
  let symbolUpper := strUpper symbol
  if strEndsWith symbolUpper "CE" then CALL_OPTION
  else if strEndsWith symbolUpper "PE" then PUT_OPTION
  else if strContains symbolUpper "FUT" || monthTokens.any (fun m => strContains symbolUpper m) then
    FUTURES
  else if indexTokens.any (fun i => strContains symbolUpper i) then INDEX
  else EQUITY

/-- `InstrumentType.is_derivative`. -/
def isDerivative : InstrumentType → Bool
  | FUTURES => true
  | CALL_OPTION => true
  | PUT_OPTION => true
  | _ => false

/-- `InstrumentType.requires_lot_size`. -/
def requiresLotSize (t : InstrumentType) : Bool := t.isDerivative

end InstrumentType

/-! ## `freqtrade/data/lot_size_manager.py` -/

/-- The manager's lot-size tables (`self._lot_sizes`): `indices` and `stocks`
maps from base symbol to lot size. -/
structure LotTable where
  indices : List (String × ℕ)
  stocks : List (String × ℕ)
  deriving DecidableEq, Repr

/-- The hardcoded `_default_lot_sizes` table. -/
def defaultLotSizes : LotTable :=
  { indices := [("NIFTY", 25), ("BANKNIFTY", 15), ("FINNIFTY", 40), ("MIDCPNIFTY", 75),
                ("NIFTYNEXT50", 25), ("SENSEX", 10), ("BANKEX", 15)],
    stocks := [("RELIANCE", 250), ("TCS", 150), ("INFY", 300), ("HDFCBANK", 550),
               ("ICICIBANK", 700), ("SBIN", 1500), ("BHARTIARTL", 1200), ("ITC", 1600),
               ("KOTAKBANK", 400), ("LT", 225)] }

/-- Drop the trailing run of decimal digits (the strike price), as the regex
search for a final match of digits does. -/
def dropTrailingDigits (l : List Char) : List Char :=
  (l.reverse.dropWhile Char.isDigit).reverse

/-- Length of a suffix of `l` matching the expiry regex
`\d{1,2}[A-Z]{3}\d{2,4}$`: up to 2 digits, then 3 uppercase letters, then 2
to 4 digits, anchored at the end. Returns `none` when no suffix matches. -/
def expirySuffixLen (l : List Char) : Option ℕ :=
  let r := l.reverse
  -- from the end: 2-4 digits, then 3 uppercase letters, then 1-2 digits
  let dTail := r.takeWhile Char.isDigit
  let nTail := min dTail.length 4
  if nTail < 2 then none
  else
    let afterD := r.drop nTail
    let letters := afterD.takeWhile (fun c => c.isUpper)
    if letters.length < 3 then none
    else
      let afterL := afterD.drop 3
      let dHead := afterL.takeWhile Char.isDigit
      if dHead.length < 1 then none
      else some (nTail + 3 + min dHead.length 2)

/-- `LotSizeManager._extract_base_symbol`: strip `/...`, a `CE`/`PE` option
suffix, the trailing strike digits and (if present) an expiry token. -/
def extractBaseSymbol (symbol : String) : String :=
  let sym := if strContains symbol "/" then takeBeforeSlash symbol else symbol
  if strEndsWith sym "CE" || strEndsWith sym "PE" then
    let base := sym.data.dropLast.dropLast
    let base := dropTrailingDigits base
    let base := match expirySuffixLen base with
      | some n => base.take (base.length - n)
      | none => base
    strUpper (String.mk base)
  else
    strUpper sym

/-- `LotSizeManager.get_lot_size`: indices first, then stocks, defaulting to
lot size 1 for unknown underlyings. -/
def getLotSize (table : LotTable) (symbol : String) : ℕ :=
  let base := extractBaseSymbol symbol
  match alookup base table.indices with
  | some n => n
  | none =>
    match alookup base table.stocks with
    | some n => n
    | none => 1

/-- Every lot size recorded in the table is positive (true of the default
table; `get_lot_size`'s fallback is 1). -/
def LotTable.positive (t : LotTable) : Prop :=
  (∀ p ∈ t.indices, 0 < p.2) ∧ (∀ p ∈ t.stocks, 0 < p.2)

instance (t : LotTable) : Decidable t.positive := by
  unfold LotTable.positive; infer_instance

theorem defaultLotSizes_positive : defaultLotSizes.positive := by decide

theorem alookup_mem {α β : Type} [DecidableEq α] {k : α} {v : β} :
    ∀ {l : List (α × β)}, alookup k l = some v → (k, v) ∈ l := by
  intro l
  induction l with
  | nil => intro h; simp [alookup] at h
  | cons p rest ih =>
    intro h
    unfold alookup at h
    by_cases hk : k = p.1
    · rw [if_pos hk] at h
      have hv : v = p.2 := by injection h with h'; exact h'.symm
      subst hv; rw [hk]
      exact Prod.mk.eta ▸ List.mem_cons_self _ _
    · rw [if_neg hk] at h
      exact List.mem_cons_of_mem _ (ih h)

theorem getLotSize_pos (table : LotTable) (h : table.positive) (symbol : String) :
    0 < getLotSize table symbol := by
  unfold getLotSize
  dsimp only
  cases hi : alookup (extractBaseSymbol symbol) table.indices with
  | some n => exact h.1 _ (alookup_mem hi)
  | none =>
    cases hs : alookup (extractBaseSymbol symbol) table.stocks with
    | some n => exact h.2 _ (alookup_mem hs)
    | none => exact Nat.one_pos

/-! ## Paperbroker data model (`freqtrade/exchange/paperbroker.py`) -/

/-- One OHLCV candle (CSV row / OHLCV 6-tuple): millisecond timestamp and
open/high/low/close/volume. `open` is a Lean keyword, hence `open_`. -/
structure Candle where
  timestamp : ℕ
  open_ : ℚ
  high : ℚ
  low : ℚ
  close : ℚ
  volume : ℚ
  deriving DecidableEq, Repr

/-- Order side (`BuySell`). -/
inductive Side where
  | buy
  | sell
  deriving DecidableEq, Repr

/-- Order type. -/
inductive OrderType where
  | market
  | limit
  deriving DecidableEq, Repr

/-- Order status. -/
inductive OrderStatus where
  | open
  | closed
  | canceled
  deriving DecidableEq, Repr

/-- The order dict built by `create_order` (the `datetime`/`average`/`info`
presentation fields are omitted; `average` duplicates `price` on fill). -/
structure Order where
  id : ℕ
  timestamp : ℕ
  status : OrderStatus
  symbol : String
  type : OrderType
  side : Side
  price : ℚ
  amount : ℚ
  filled : ℚ
  remaining : ℚ
  cost : ℚ
  feeCost : ℚ
  deriving DecidableEq, Repr

/-- One entry of the `self._balance` currency map. -/
structure BalanceEntry where
  free : ℚ
  used : ℚ
  total : ℚ
  deriving DecidableEq, Repr

/-- One entry of `self._positions`. -/
structure Position where
  amount : ℚ
  cost : ℚ
  deriving DecidableEq, Repr

/-- One entry of `self._trade_history`. -/
structure TradeRecord where
  orderId : ℕ
  timestamp : ℕ
  pair : String
  side : Side
  amount : ℚ
  price : ℚ
  commission : ℚ
  deriving DecidableEq, Repr

/-- Typed errors raised by the simulation engine. -/
inductive OrderError where
  | insufficientFunds
  | invalidOrder
  deriving DecidableEq, Repr

/-- Mutable state of one `Paperbroker` instance, plus its (immutable)
configuration. The only currency key ever used by the engine is `'INR'`,
so `self._balance` is modelled by its single INR entry. -/
structure PaperState where
  slippagePercent : ℚ
  commissionPercent : ℚ
  lotSizes : LotTable
  balanceINR : BalanceEntry
  orders : List (ℕ × Order)
  openOrders : List (ℕ × Order)
  filledOrders : List (ℕ × Order)
  positions : List (String × Position)
  tradeHistory : List TradeRecord
  priceCache : List (String × ℚ)
  csvData : List (String × List Candle)
  useCsvData : Bool
  nextId : ℕ
  deriving DecidableEq, Repr

/-- Values of the impure calls (`random.uniform`, `datetime.now`) consumed by
one operation. -/
structure Oracle where
  now : ℕ
  movement : ℚ
  basePrice : ℚ
  askVolume : ℚ
  bidVolume : ℚ
  quoteVolume : ℚ
  baseVolume : ℚ
  percentage : ℚ
  candleDraws : List (ℚ × ℚ × ℚ × ℚ)
  deriving Repr

/-- The state right after `__init__` given config values and the CSV series
found on disk: initial INR balance, empty ledgers, price cache seeded with
each pair's latest close, CSV mode on iff any series was loaded. -/
def initState (initialBalance slippage commission : ℚ) (lots : LotTable)
    (csv : List (String × List Candle)) : PaperState :=
  { slippagePercent := slippage,
    commissionPercent := commission,
    lotSizes := lots,
    balanceINR := { free := initialBalance, used := 0, total := initialBalance },
    orders := [], openOrders := [], filledOrders := [], positions := [], tradeHistory := [],
    priceCache := csv.filterMap (fun p => (p.2.getLast?).map (fun c => (p.1, c.close))),
    csvData := csv,
    useCsvData := !csv.isEmpty,
    nextId := 0 }

/-! ## Paperbroker price helpers -/

/-- `Paperbroker._simulate_price`: latest CSV close when CSV data is loaded
for the pair, otherwise a random walk on the cached price (the random draws
come from the oracle). Returns the price and the updated state (the price
cache is written). -/
def simulatePrice (s : PaperState) (pair : String) (basePrice : Option ℚ) (o : Oracle) :
    ℚ × PaperState :=
  match (if s.useCsvData then alookup pair s.csvData else none) with
  | some df =>
    match df.getLast? with
    | some c => (c.close, { s with priceCache := aset pair c.close s.priceCache })
    | none => ((alookup pair s.priceCache).getD 100, s)
  | none =>
    match alookup pair s.priceCache with
    | some lastPrice =>
      let newPrice := lastPrice * (1 + o.movement)
      (newPrice, { s with priceCache := aset pair newPrice s.priceCache })
    | none =>
      let newPrice := match basePrice with
        | some b => if b ≠ 0 then b else o.basePrice
        | none => o.basePrice
      (newPrice, { s with priceCache := aset pair newPrice s.priceCache })

/-- `Paperbroker._apply_slippage`: pay more when buying, receive less when
selling. -/
def applySlippage (slippagePercent price : ℚ) (side : Side) : ℚ :=
  let slippage := price * (slippagePercent / 100)
  match side with
  | .buy => price + slippage
  | .sell => price - slippage

/-- `Paperbroker._calculate_commission`. -/
def calcCommission (commissionPercent amount : ℚ) : ℚ :=
  amount * (commissionPercent / 100)

/-- Simulated ticker (`fetch_ticker` result). -/
structure Ticker where
  symbol : String
  ask : ℚ
  bid : ℚ
  last : ℚ
  askVolume : ℚ
  bidVolume : ℚ
  quoteVolume : ℚ
  baseVolume : ℚ
  percentage : ℚ
  deriving Repr

/-- `Paperbroker.fetch_ticker`: last price from `_simulate_price`, a 0.1%
bid/ask spread around it, random volume fields. -/
def fetchTicker (s : PaperState) (pair : String) (o : Oracle) : Ticker × PaperState :=
  let pr := simulatePrice s pair none o
  let lastPrice := pr.1
  let spread := lastPrice * (1 / 1000)
  ({ symbol := pair,
     ask := lastPrice + spread / 2,
     bid := lastPrice - spread / 2,
     last := lastPrice,
     askVolume := o.askVolume,
     bidVolume := o.bidVolume,
     quoteVolume := o.quoteVolume,
     baseVolume := o.baseVolume,
     percentage := o.percentage }, pr.2)

/-! ## Paperbroker order operations -/

/-- The lot-size normalization step at the top of `create_order`: for
derivative instruments round the amount down to a lot multiple
(`int(amount / lot_size) * lot_size`) and reject a zero result. -/
def normalizeOrderAmount (s : PaperState) (pair : String) (amount : ℚ) : Except OrderError ℚ :=
  if (InstrumentType.fromSymbol pair).requiresLotSize then
    let lotSize := getLotSize s.lotSizes pair
    let amount := if pyFmod amount lotSize ≠ 0 then (pyInt (amount / lotSize) : ℚ) * lotSize
                  else amount
    if amount = 0 then .error .invalidOrder else .ok amount
  else .ok amount

/-- The execution price `create_order` uses: slippage-adjusted current price
for market orders; for limit orders the (truthy) rate, else the current
price. -/
def executionPrice (s : PaperState) (ordertype : OrderType) (side : Side)
    (currentPrice : ℚ) (rate : Option ℚ) : ℚ :=
  if ordertype = .market then applySlippage s.slippagePercent currentPrice side
  else match rate with
    | some r => if r ≠ 0 then r else currentPrice
    | none => currentPrice

/-- The `total_cost = order_value + commission` that `create_order` checks
against the free INR balance (0 when the lot validation already rejected the
order). -/
def orderTotalCost (s : PaperState) (pair : String) (ordertype : OrderType) (side : Side)
    (amount : ℚ) (rate : Option ℚ) (o : Oracle) : ℚ :=
  match normalizeOrderAmount s pair amount with
  | .error _ => 0
  | .ok amount =>
    let pr := simulatePrice s pair none o
    let execPrice := executionPrice pr.2 ordertype side pr.1 rate
    let orderValue := execPrice * amount
    orderValue + calcCommission pr.2.commissionPercent orderValue

/-- `Paperbroker.create_order`. Returns the created order (or the typed
error) together with the state as mutated up to that point: the lot-size
rejection happens before any mutation; the insufficient-funds rejection
happens after `_simulate_price` has written the price cache. `will_fill` is
the literal `True` of the source, so orders always fill synchronously; the
dead `status == 'open'` branch is embedded as written. -/
def createOrder (s : PaperState) (pair : String) (ordertype : OrderType) (side : Side)
    (amount : ℚ) (rate : Option ℚ) (o : Oracle) : Except OrderError Order × PaperState :=
  match normalizeOrderAmount s pair amount with
  | .error e => (.error e, s)
  | .ok amount =>
    let pr := simulatePrice s pair none o
    let currentPrice := pr.1
    let s := pr.2
    let execPrice := executionPrice s ordertype side currentPrice rate
    let orderValue := execPrice * amount
    let commission := calcCommission s.commissionPercent orderValue
    let totalCost := orderValue + commission
    if side = .buy ∧ s.balanceINR.free < totalCost then
      (.error .insufficientFunds, s)
    else
      let willFill := true
      let orderId := s.nextId
      let ord : Order :=
        { id := orderId,
          timestamp := o.now,
          status := if willFill then .closed else .open,
          symbol := pair,
          type := ordertype,
          side := side,
          price := execPrice,
          amount := amount,
          filled := if willFill then amount else 0,
          remaining := if willFill then 0 else amount,
          cost := orderValue,
          feeCost := commission }
      let s := { s with orders := aset orderId ord s.orders, nextId := orderId + 1 }
      let s :=
        if ord.status = .open then
          let s := { s with openOrders := aset orderId ord s.openOrders }
          if side = .buy then
            { s with balanceINR :=
                { s.balanceINR with
                    free := s.balanceINR.free - totalCost,
                    used := s.balanceINR.used + totalCost } }
          else s
        else
          let s := { s with filledOrders := aset orderId ord s.filledOrders }
          if side = .buy then
            let s := { s with balanceINR :=
                { s.balanceINR with free := s.balanceINR.free - totalCost } }
            let p := (alookup pair s.positions).getD ({ amount := 0, cost := 0 } : Position)
            let newPos : Position := { amount := p.amount + amount, cost := p.cost + orderValue }
            { s with positions := aset pair newPos s.positions }
          else
            let s := { s with balanceINR :=
                { s.balanceINR with free := s.balanceINR.free + (orderValue - commission) } }
            match alookup pair s.positions with
            | some p =>
              let newPos : Position := { amount := p.amount - amount, cost := p.cost }
              { s with positions := aset pair newPos s.positions }
            | none => s
      let s := { s with tradeHistory := s.tradeHistory ++
            [{ orderId := orderId, timestamp := o.now, pair := pair, side := side,
               amount := amount, price := execPrice, commission := commission }] }
      (.ok ord, s)

/-- `Paperbroker.cancel_order`: unknown id or already-closed order raises
`InvalidOrder` without touching any state; otherwise mark canceled, release
the reserved funds of a buy, and drop the order from the open-order dict. -/
def cancelOrder (s : PaperState) (orderId : ℕ) : Except OrderError Order × PaperState :=
  match alookup orderId s.orders with
  | none => (.error .invalidOrder, s)
  | some ord =>
    if ord.status = .closed then (.error .invalidOrder, s)
    else
      let ord := { ord with status := .canceled }
      let s := { s with orders := aset orderId ord s.orders }
      let s :=
        if ord.side = .buy then
          let reserved := ord.cost + calcCommission s.commissionPercent ord.cost
          { s with balanceINR :=
              { s.balanceINR with
                  free := s.balanceINR.free + reserved,
                  used := s.balanceINR.used - reserved } }
        else s
      let s := { s with openOrders := adel orderId s.openOrders }
      (.ok ord, s)


/-! ## Paperbroker OHLCV handling -/

/-- `freq_map` / `timeframe_minutes`: timeframe string to minutes, default 5
(`'5T'`). -/
def freqMinutes (timeframe : String) : ℕ :=
  if timeframe = "1m" then 1
  else if timeframe = "3m" then 3
  else if timeframe = "5m" then 5
  else if timeframe = "10m" then 10
  else if timeframe = "15m" then 15
  else if timeframe = "30m" then 30
  else if timeframe = "1h" then 60
  else if timeframe = "1d" then 1440
  else 5

/-- Left edge of the fixed-width bucket containing timestamp `ts` for bucket
width `w` (ms). pandas `resample` anchors its bins at the midnight of the
first day; every supported timeframe divides one day, and midnight is a
whole multiple of each such width since the epoch, so day-anchored bins and
epoch-anchored bins coincide. -/
def bucketStart (w ts : ℕ) : ℕ := w * (ts / w)

/-- A freshly opened aggregation bucket seeded by its first candle:
`open = first`, and so far `high`/`low`/`close`/`volume` are that candle's. -/
def initAgg (w : ℕ) (c : Candle) : Candle :=
  { timestamp := bucketStart w c.timestamp,
    open_ := c.open_, high := c.high, low := c.low, close := c.close, volume := c.volume }

/-- Fold one more candle of the same bucket into the aggregate:
`high = max`, `low = min`, `close = last`, `volume = sum`. -/
def mergeAgg (acc c : Candle) : Candle :=
  { acc with high := max acc.high c.high, low := min acc.low c.low,
             close := c.close, volume := acc.volume + c.volume }

/-- Grouping loop of `_resample_candles`: candles arrive in time order, so
the pandas group-by over bin labels is a fold over maximal runs of equal
bucket keys. Bins containing no candle simply never appear (`dropna()`). -/
def resampleAux (w : ℕ) (acc : Candle) : List Candle → List Candle
  | [] => [acc]
  | c :: cs =>
    if bucketStart w c.timestamp = acc.timestamp then resampleAux w (mergeAgg acc c) cs
    else acc :: resampleAux w (initAgg w c) cs

/-- `Paperbroker._resample_candles` for bucket width `w` in milliseconds
(`w = 60000 * freqMinutes timeframe`): group into fixed-width epoch-aligned
buckets, aggregate open/first high/max low/min close/last volume/sum, drop
empty buckets; the resampled timestamp is the bucket's left edge. -/
def resampleCandles (w : ℕ) : List Candle → List Candle
  | [] => []
  | c :: cs => resampleAux w (initAgg w c) cs

/-- `limit = limit or 100`: Python truthiness, `None` and `0` both fall back
to 100. -/
def effLimit : Option ℕ → ℕ
  | none => 100
  | some n => if n = 0 then 100 else n

/-- Python truthiness of the optional `since` timestamp (`if since:`). -/
def sinceTruthy : Option ℕ → Bool
  | some v => decide (v ≠ 0)
  | none => false

/-- `Paperbroker._fetch_ohlcv_from_csv`: slice the loaded series (from a
truthy `since` forward, else the most recent `limit` candles), then resample
when the requested timeframe differs from the stored 1m base resolution. -/
def fetchOhlcvFromCsv (s : PaperState) (pair timeframe : String)
    (since limit : Option ℕ) : List Candle :=
  match alookup pair s.csvData with
  | none => []
  | some df =>
    let lim := effLimit limit
    let candleSlice :=
      if sinceTruthy since then
        (df.filter (fun c => decide (since.getD 0 ≤ c.timestamp))).take lim
      else df.drop (df.length - lim)
    if timeframe ≠ "1m" then resampleCandles (freqMinutes timeframe * 60000) candleSlice
    else candleSlice

/-- The simulated-candle loop of `fetch_ohlcv` (no CSV data): a random walk
of `n` candles of width `tfMs`, each open chained to the prior close, with
the random draws `(closeMove, highMove, lowMove, volume)` supplied by the
oracle stream. Returns the candles and the final base price. -/
def synthCandles (start tfMs : ℕ) :
    ℕ → ℕ → ℚ → List (ℚ × ℚ × ℚ × ℚ) → List Candle × ℚ
  | 0, _, basePrice, _ => ([], basePrice)
  | n + 1, i, basePrice, draws =>
    let d := draws.headD (0, 0, 0, 0)
    let openPrice := basePrice
    let closePrice := basePrice * (1 + d.1)
    let highPrice := max openPrice closePrice * (1 + d.2.1)
    let lowPrice := min openPrice closePrice * (1 - d.2.2.1)
    let c : Candle := { timestamp := start + i * tfMs, open_ := openPrice, high := highPrice,
                        low := lowPrice, close := closePrice, volume := d.2.2.2 }
    let rest := synthCandles start tfMs n (i + 1) closePrice draws.tail
    (c :: rest.1, rest.2)

/-- `Paperbroker.fetch_ohlcv`: CSV branch when CSV data is loaded for the
pair, else simulated candles. (`self._proxy` is never assigned in the
source, so the proxy branch is dead and not modelled.) -/
def fetchOhlcv (s : PaperState) (pair timeframe : String)
    (since limit : Option ℕ) (o : Oracle) : List Candle × PaperState :=
  if s.useCsvData ∧ (alookup pair s.csvData).isSome then
    (fetchOhlcvFromCsv s pair timeframe since limit, s)
  else
    let lim := effLimit limit
    let tfMin := freqMinutes timeframe
    let startTime := match since with
      | some v => if v ≠ 0 then v else o.now - lim * tfMin * 60000
      | none => o.now - lim * tfMin * 60000
    let pr := simulatePrice s pair none o
    let res := synthCandles startTime (tfMin * 60000) lim 0 pr.1 o.candleDraws
    (res.1, { pr.2 with priceCache := aset pair res.2 pr.2.priceCache })

/-! ## `freqtrade/exchange/rate_limiter.py` -/

/-- `RateLimiter` configuration (`None` = unlimited; a threshold of 0 is
falsy in Python and therefore also unlimited). -/
structure RLConfig where
  requestsPerSecond : Option ℕ
  requestsPerMinute : Option ℕ
  requestsPerHour : Option ℕ
  requestsPerDay : Option ℕ
  minRequestInterval : ℚ
  deriving DecidableEq, Repr

/-- Python truthiness of an optional integer threshold. -/
def optTruthy : Option ℕ → Bool
  | some n => n ≠ 0
  | none => false

/-- Mutable `RateLimiter` state: the timestamp deque (oldest first) and the
bookkeeping counters. -/
structure RLState where
  requestTimes : List ℚ
  lastRequestTime : ℚ
  totalRequests : ℕ
  totalWaitTime : ℚ
  rateLimitHits : ℕ
  deriving DecidableEq, Repr

/-- The freshly constructed limiter state. -/
def RLState.init : RLState :=
  { requestTimes := [], lastRequestTime := 0, totalRequests := 0,
    totalWaitTime := 0, rateLimitHits := 0 }

/-- The longest configured window (`_cleanup_old_requests`): 1 day by
default, narrowed when only shorter windows are configured. -/
def maxPeriod (cfg : RLConfig) : ℚ :=
  if optTruthy cfg.requestsPerHour ∧ ¬ optTruthy cfg.requestsPerDay then 3600
  else if optTruthy cfg.requestsPerMinute ∧
      ¬ (optTruthy cfg.requestsPerHour ∨ optTruthy cfg.requestsPerDay) then 60
  else if optTruthy cfg.requestsPerSecond ∧
      ¬ (optTruthy cfg.requestsPerMinute ∨ optTruthy cfg.requestsPerHour ∨
          optTruthy cfg.requestsPerDay) then 1
  else 86400

/-- `RateLimiter._cleanup_old_requests`: pop timestamps from the front while
older than `current_time - maxPeriod`. -/
def cleanupOldRequests (cfg : RLConfig) (t : ℚ) (times : List ℚ) : List ℚ :=
  times.dropWhile (fun x => decide (x < t - maxPeriod cfg))

/-- `RateLimiter._check_limit`: if the window already holds `limit`
requests, wait until the oldest in-window request ages out, plus a 10 ms
buffer. -/
def checkLimit (times : List ℚ) (t period : ℚ) (limit : ℕ) : ℚ :=
  let cutoff := t - period
  let inPeriod := times.filter (fun x => decide (cutoff ≤ x))
  if limit ≤ inPeriod.length then
    let oldest := (inPeriod.min?).getD t
    max 0 ((oldest + period) - t + 1 / 100)
  else 0

/-- `RateLimiter.wait_if_needed` at call time `t`: cleanup, take the max of
the min-interval wait and each configured window's wait, sleep for it
(modelled as exact: the recorded time is `t + wait`), then record the
request and advance the counters. Returns the wait time and the new state. -/
def waitIfNeeded (cfg : RLConfig) (st : RLState) (t : ℚ) : ℚ × RLState :=
  let times := cleanupOldRequests cfg t st.requestTimes
  let w0 : ℚ := 0
  let w1 := if 0 < cfg.minRequestInterval then
      (if t - st.lastRequestTime < cfg.minRequestInterval then
        max w0 (cfg.minRequestInterval - (t - st.lastRequestTime)) else w0)
    else w0
  let w2 := if optTruthy cfg.requestsPerSecond then
      max w1 (checkLimit times t 1 (cfg.requestsPerSecond.getD 0)) else w1
  let w3 := if optTruthy cfg.requestsPerMinute then
      max w2 (checkLimit times t 60 (cfg.requestsPerMinute.getD 0)) else w2
  let w4 := if optTruthy cfg.requestsPerHour then
      max w3 (checkLimit times t 3600 (cfg.requestsPerHour.getD 0)) else w3
  let w5 := if optTruthy cfg.requestsPerDay then
      max w4 (checkLimit times t 86400 (cfg.requestsPerDay.getD 0)) else w4
  if 0 < w5 then
    let recordedAt := t + w5
    (w5, { requestTimes := times ++ [recordedAt],
           lastRequestTime := recordedAt,
           totalRequests := st.totalRequests + 1,
           totalWaitTime := st.totalWaitTime + w5,
           rateLimitHits := st.rateLimitHits + 1 })
  else
    (w5, { requestTimes := times ++ [t],
           lastRequestTime := t,
           totalRequests := st.totalRequests + 1,
           totalWaitTime := st.totalWaitTime,
           rateLimitHits := st.rateLimitHits })

/-- `n` `wait_if_needed` calls in immediate succession: the first call
arrives at `t`, each later call arrives exactly when the previous one
returns (i.e. at the previous recorded timestamp). Returns the list of
`(wait, recordedTime)` pairs and the final state. -/
def runCalls (cfg : RLConfig) : ℕ → RLState → ℚ → List (ℚ × ℚ) × RLState
  | 0, st, _ => ([], st)
  | n + 1, st, t =>
    let r := waitIfNeeded cfg st t
    let rest := runCalls cfg n r.2 r.2.lastRequestTime
    ((r.1, r.2.lastRequestTime) :: rest.1, rest.2)


/-! ## Concrete fixtures used by the claim theorems -/

/-- A flat candle at price 100 (minute-aligned timestamp). -/
def candle100 : Candle :=
  { timestamp := 60000, open_ := 100, high := 100, low := 100, close := 100, volume := 5 }

/-- One loaded CSV series: pair `X/INR` whose latest close is 100. -/
def csvX : List (String × List Candle) := [("X/INR", [candle100])]

/-- Fresh Paperbroker: initial balance 100000, slippage 0.1%, commission
0.05%, default lot table, the `X/INR` series loaded. -/
def stateX : PaperState := initState 100000 (1 / 10) (5 / 100) defaultLotSizes csvX

/-- A fixed oracle (its random draws are irrelevant on the CSV path). -/
def oracle0 : Oracle :=
  { now := 0, movement := 0, basePrice := 0, askVolume := 0, bidVolume := 0,
    quoteVolume := 0, baseVolume := 0, percentage := 0, candleDraws := [] }

/-! ## C1 — balance invariant `total = free + used` -/

/-- C1 (code bug): the balance invariant `total = free + used` holds in the
initial state but is broken by the very first synchronously filled market
buy: `create_order`'s fill branch debits `free` without adjusting `total`
(unlike the open-order and cancel paths, which move value between `free`
and `used` and keep the invariant). -/
theorem c1_fill_breaks_balance_invariant :
    stateX.balanceINR.total = stateX.balanceINR.free + stateX.balanceINR.used ∧
    (createOrder stateX "X/INR" .market .buy 10 none oracle0).2.balanceINR.total ≠
      (createOrder stateX "X/INR" .market .buy 10 none oracle0).2.balanceINR.free +
        (createOrder stateX "X/INR" .market .buy 10 none oracle0).2.balanceINR.used := by
  have hclass : InstrumentType.fromSymbol "X/INR" = .EQUITY := by decide
  constructor
  · norm_num [stateX, initState]
  · norm_num +decide [createOrder, normalizeOrderAmount, hclass, InstrumentType.requiresLotSize,
      InstrumentType.isDerivative, simulatePrice, alookup, aset, executionPrice, applySlippage,
      calcCommission, stateX, initState, csvX, candle100, oracle0]

/-! ## C3 — synchronous market-buy fill scenario -/

/-- C3 (counterexample): in the spec's scenario (buy 10 of `X/INR` at price
100, slippage 0.1%, commission 0.05%) the commission actually charged is
`0.5005`, not `≈ 0.05005`, and the free balance is reduced by
`1001.5005`, not by `100.1 * 10 + 0.05005`. -/
theorem c3_counterexample_commission_off_by_ten :
    ((createOrder stateX "X/INR" .market .buy 10 none oracle0).1.map Order.feeCost =
      .ok (1001 / 2000)) ∧
    (1001 / 2000 : ℚ) ≠ 5005 / 100000 ∧
    (createOrder stateX "X/INR" .market .buy 10 none oracle0).2.balanceINR.free =
      100000 - (1001 + 1001 / 2000) ∧
    (100000 - (1001 + 1001 / 2000) : ℚ) ≠ 100000 - (1001 / 10 * 10 + 5005 / 100000) := by
  have hclass : InstrumentType.fromSymbol "X/INR" = .EQUITY := by decide
  refine ⟨?_, by norm_num, ?_, by norm_num⟩ <;>
    norm_num +decide [createOrder, normalizeOrderAmount, hclass, InstrumentType.requiresLotSize,
      InstrumentType.isDerivative, simulatePrice, alookup, aset, executionPrice, applySlippage,
      calcCommission, stateX, initState, csvX, candle100, oracle0, Except.map]

/-- C3 (amended): the scenario yields execution price exactly `100.1`,
commission exactly `0.5005 = 100.1 * 10 * 0.05%`, a closed (filled) order
with `filled = 10`, `remaining = 0`, and the free balance reduced by exactly
`100.1 * 10 + 0.5005`. -/
theorem c3_market_buy_fill_scenario :
    (createOrder stateX "X/INR" .market .buy 10 none oracle0).1 =
      .ok { id := 0, timestamp := 0, status := .closed, symbol := "X/INR", type := .market,
            side := .buy, price := 1001 / 10, amount := 10, filled := 10, remaining := 0,
            cost := 1001, feeCost := 1001 / 2000 } ∧
    (createOrder stateX "X/INR" .market .buy 10 none oracle0).2.balanceINR.free =
      stateX.balanceINR.free - (1001 / 10 * 10 + 1001 / 2000) := by
  have hclass : InstrumentType.fromSymbol "X/INR" = .EQUITY := by decide
  refine ⟨?_, ?_⟩ <;>
    norm_num +decide [createOrder, normalizeOrderAmount, hclass, InstrumentType.requiresLotSize,
      InstrumentType.isDerivative, simulatePrice, alookup, aset, executionPrice, applySlippage,
      calcCommission, stateX, initState, csvX, candle100, oracle0]


/-! ## C2 — ticker price equals the latest loaded candle's close -/

/-- Time-ascending order on candles. -/
def tsLe (a b : Candle) : Prop := a.timestamp ≤ b.timestamp

instance : IsTrans Candle tsLe := ⟨fun _ _ _ h1 h2 => le_trans h1 h2⟩

instance : DecidableRel tsLe := fun a b => inferInstanceAs (Decidable (a.timestamp ≤ b.timestamp))

theorem tsLe_getLast : ∀ (l : List Candle), l.Chain' tsLe → ∀ c, l.getLast? = some c →
    ∀ d ∈ l, d.timestamp ≤ c.timestamp := by
  intro l
  induction l with
  | nil => intro _ c hc; simp at hc
  | cons a rest ih =>
    intro hch c hc d hd
    cases rest with
    | nil =>
      simp at hc hd
      subst hc; subst hd; exact le_refl _
    | cons e r2 =>
      rw [List.getLast?_cons_cons] at hc
      have hch2 := (List.chain'_cons.mp hch).2
      have hae : tsLe a e := (List.chain'_cons.mp hch).1
      rcases List.mem_cons.mp hd with rfl | hd2
      · exact le_trans hae (ih hch2 c hc e (List.mem_cons_self _ _))
      · exact ih hch2 c hc d hd2

/-- `_simulate_price` on a pair with a nonempty loaded CSV series returns the
latest candle's close and only touches the price cache. -/
theorem simulatePrice_csv (s : PaperState) (pair : String) (df : List Candle)
    (bp : Option ℚ) (o : Oracle) (hcsv : s.useCsvData = true)
    (hdf : alookup pair s.csvData = some df) (hne : df ≠ []) :
    simulatePrice s pair bp o =
      ((df.getLast hne).close,
       { s with priceCache := aset pair (df.getLast hne).close s.priceCache }) := by
  unfold simulatePrice
  rw [hcsv]
  simp only [if_true, hdf, List.getLast?_eq_getLast df hne]

/-- `_simulate_price` only ever writes the price cache. -/
theorem simulatePrice_snd (s : PaperState) (pair : String) (bp : Option ℚ) (o : Oracle) :
    ∃ pc, (simulatePrice s pair bp o).2 = { s with priceCache := pc } := by
  unfold simulatePrice
  split
  · split
    · exact ⟨_, rfl⟩
    · exact ⟨s.priceCache, rfl⟩
  · split
    · exact ⟨_, rfl⟩
    · exact ⟨_, rfl⟩

/-- C2 (confirmed): whenever CSV data is loaded for a pair (a nonempty,
time-ascending series), `fetch_ticker` quotes a `last` price equal to the
close of the series' latest-timestamp candle — and it leaves the loaded
series untouched, so this holds for every query no matter how many price
queries were made before. -/
theorem c2_ticker_last_matches_latest_candle (s : PaperState) (pair : String)
    (df : List Candle) (o : Oracle) (hcsv : s.useCsvData = true)
    (hdf : alookup pair s.csvData = some df) (hne : df ≠ [])
    (hsorted : df.Chain' tsLe) :
    ∃ c ∈ df, (fetchTicker s pair o).1.last = c.close ∧
      (∀ d ∈ df, d.timestamp ≤ c.timestamp) ∧
      (fetchTicker s pair o).2.csvData = s.csvData ∧
      (fetchTicker s pair o).2.useCsvData = true := by
  refine ⟨df.getLast hne, List.getLast_mem hne, ?_, ?_, ?_, ?_⟩
  · show (fetchTicker s pair o).1.last = _
    unfold fetchTicker
    rw [simulatePrice_csv s pair df none o hcsv hdf hne]
  · exact tsLe_getLast df hsorted _ (List.getLast?_eq_getLast df hne)
  · unfold fetchTicker
    rw [simulatePrice_csv s pair df none o hcsv hdf hne]
  · unfold fetchTicker
    rw [simulatePrice_csv s pair df none o hcsv hdf hne]
    exact hcsv

/-- C2 witness: the concrete broker `stateX` with the loaded `X/INR` series. -/
theorem c2_witness :
    stateX.useCsvData = true ∧ alookup "X/INR" stateX.csvData = some [candle100] ∧
    ∃ c ∈ [candle100], (fetchTicker stateX "X/INR" oracle0).1.last = c.close ∧
      (∀ d ∈ [candle100], d.timestamp ≤ c.timestamp) ∧
      (fetchTicker stateX "X/INR" oracle0).2.csvData = stateX.csvData ∧
      (fetchTicker stateX "X/INR" oracle0).2.useCsvData = true :=
  ⟨rfl, rfl,
    c2_ticker_last_matches_latest_candle stateX "X/INR" [candle100] oracle0 rfl rfl
      (by simp) (by simp)⟩


/-! ## C4 — `InsufficientFunds` exactly on buy-side shortfall -/

theorem normalizeOrderAmount_error {s : PaperState} {pair : String} {amount : ℚ}
    {e : OrderError} (h : normalizeOrderAmount s pair amount = .error e) :
    e = .invalidOrder := by
  unfold normalizeOrderAmount at h
  dsimp only at h
  repeat' split at h
  all_goals try (injection h with h'; exact h'.symm)
  all_goals exact absurd h (by simp)

/-- C4 (confirmed): starting from any state with a nonnegative free INR
balance, `create_order` raises `InsufficientFunds` exactly when the order is
a buy whose `execution_price * amount + commission` exceeds the free INR
balance; and when it does, the balance, positions, order ledger and trade
history are all left unchanged (only the price cache has been touched by
`_simulate_price`). -/
theorem c4_insufficient_funds_iff (s : PaperState) (pair : String) (ot : OrderType)
    (side : Side) (amount : ℚ) (rate : Option ℚ) (o : Oracle)
    (hfree : 0 ≤ s.balanceINR.free) :
    ((createOrder s pair ot side amount rate o).1 = .error .insufficientFunds ↔
      side = .buy ∧ s.balanceINR.free < orderTotalCost s pair ot side amount rate o) ∧
    ((createOrder s pair ot side amount rate o).1 = .error .insufficientFunds →
      (createOrder s pair ot side amount rate o).2.balanceINR = s.balanceINR ∧
      (createOrder s pair ot side amount rate o).2.positions = s.positions ∧
      (createOrder s pair ot side amount rate o).2.orders = s.orders ∧
      (createOrder s pair ot side amount rate o).2.tradeHistory = s.tradeHistory) := by
  obtain ⟨pc, hpc⟩ := simulatePrice_snd s pair none o
  unfold createOrder orderTotalCost
  cases hn : normalizeOrderAmount s pair amount with
  | error e =>
    have he : e = .invalidOrder := normalizeOrderAmount_error hn
    subst he
    dsimp only
    refine ⟨⟨fun h => absurd h (by simp), fun hrhs => absurd hrhs.2 (not_lt.mpr hfree)⟩,
      fun h => absurd h (by simp)⟩
  | ok amt =>
    dsimp only
    rw [hpc]
    dsimp only
    split
    · next hcond =>
      exact ⟨⟨fun _ => hcond, fun _ => rfl⟩, fun _ => ⟨rfl, rfl, rfl, rfl⟩⟩
    · next hcond =>
      exact ⟨⟨fun h => absurd h (by simp), fun hrhs => absurd hrhs hcond⟩,
        fun h => absurd h (by simp)⟩

/-- A broker with only 100 INR free. -/
def statePoor : PaperState := initState 100 (1 / 10) (5 / 100) defaultLotSizes csvX

/-- C4 witness: buying 10 units at effective cost 1001.5005 from a free
balance of 100 is rejected with `InsufficientFunds` and changes nothing. -/
theorem c4_witness :
    ((createOrder statePoor "X/INR" .market .buy 10 none oracle0).1 =
        .error .insufficientFunds ↔
      Side.buy = Side.buy ∧
        statePoor.balanceINR.free <
          orderTotalCost statePoor "X/INR" .market .buy 10 none oracle0) ∧
    ((createOrder statePoor "X/INR" .market .buy 10 none oracle0).1 =
        .error .insufficientFunds →
      (createOrder statePoor "X/INR" .market .buy 10 none oracle0).2.balanceINR =
          statePoor.balanceINR ∧
      (createOrder statePoor "X/INR" .market .buy 10 none oracle0).2.positions =
          statePoor.positions ∧
      (createOrder statePoor "X/INR" .market .buy 10 none oracle0).2.orders =
          statePoor.orders ∧
      (createOrder statePoor "X/INR" .market .buy 10 none oracle0).2.tradeHistory =
          statePoor.tradeHistory) :=
  c4_insufficient_funds_iff statePoor "X/INR" .market .buy 10 none oracle0
    (by norm_num [statePoor, initState])


/-! ## C10 — position mutations on sell fills -/

theorem alookup_aset_self {α β : Type} [DecidableEq α] (k : α) (v : β) :
    ∀ l : List (α × β), alookup k (aset k v l) = some v := by
  intro l
  induction l with
  | nil => simp [aset, alookup]
  | cons p rest ih =>
    unfold aset
    by_cases hk : k = p.1
    · simp [hk, alookup]
    · simp [alookup, hk, ih]

/-- C10 (counterexample): selling half of a spot position leaves the cost
basis untouched (1001 instead of the proportional 500.5), and selling more
than is held drives the position amount negative (−5): both the
"never negative" and the "cost basis reduced proportionally" parts of the
claim fail on the code. -/
theorem c10_counterexample_sell_position :
    alookup "X/INR"
        ((createOrder (createOrder stateX "X/INR" .market .buy 10 none oracle0).2
          "X/INR" .market .sell 5 none oracle0).2).positions =
      some { amount := 5, cost := 1001 } ∧
    (1001 : ℚ) ≠ 1001 / 2 ∧
    alookup "X/INR"
        ((createOrder (createOrder stateX "X/INR" .market .buy 5 none oracle0).2
          "X/INR" .market .sell 10 none oracle0).2).positions =
      some { amount := -5, cost := 1001 / 2 } ∧
    ¬ (0 ≤ (-5 : ℚ)) := by
  have hclass : InstrumentType.fromSymbol "X/INR" = .EQUITY := by decide
  refine ⟨?_, by norm_num, ?_, by norm_num⟩ <;>
    norm_num +decide [createOrder, normalizeOrderAmount, hclass, InstrumentType.requiresLotSize,
      InstrumentType.isDerivative, simulatePrice, alookup, aset, executionPrice, applySlippage,
      calcCommission, stateX, initState, csvX, candle100, oracle0]

/-- C10 (amended): a filled sell order on a pair with an existing position
decreases the position amount by exactly the filled amount — with no lower
bound at zero — and leaves the cost basis unchanged; and positions are
mutated only by order fills: a rejected order, `cancel_order`,
`fetch_ticker` and `fetch_ohlcv` never change the position map. -/
theorem c10_sell_fill_position_update (s : PaperState) (pair : String) (ot : OrderType)
    (amount : ℚ) (rate : Option ℚ) (o : Oracle) (p : Position)
    (hp : alookup pair s.positions = some p) (ord : Order) (s2 : PaperState)
    (hrun : createOrder s pair ot .sell amount rate o = (.ok ord, s2)) :
    alookup pair s2.positions = some { amount := p.amount - ord.amount, cost := p.cost } ∧
    (∀ side2 e s3, createOrder s pair ot side2 amount rate o = (.error e, s3) →
      s3.positions = s.positions) ∧
    (∀ oid, (cancelOrder s oid).2.positions = s.positions) ∧
    (∀ pair2 o2, (fetchTicker s pair2 o2).2.positions = s.positions) ∧
    (∀ pair2 tf since limit o2, (fetchOhlcv s pair2 tf since limit o2).2.positions = s.positions) := by
  obtain ⟨pc, hpc⟩ := simulatePrice_snd s pair none o
  refine ⟨?_, ?_, ?_, ?_, ?_⟩
  · unfold createOrder at hrun
    cases hn : normalizeOrderAmount s pair amount with
    | error e =>
      rw [hn] at hrun
      exact absurd (congrArg Prod.fst hrun) (by simp)
    | ok amt =>
      rw [hn] at hrun
      dsimp only at hrun
      rw [hpc] at hrun
      simp only [reduceCtorEq, reduceIte, false_and, if_false] at hrun
      rw [hp] at hrun
      dsimp only at hrun
      injection hrun with h1 h2
      injection h1 with h1
      subst h1
      subst h2
      exact alookup_aset_self _ _ _
  · intro side2 e s3 hrun3
    unfold createOrder at hrun3
    cases hn : normalizeOrderAmount s pair amount with
    | error e2 =>
      rw [hn] at hrun3
      injection hrun3 with h1 h2
      rw [← h2]
    | ok amt =>
      rw [hn] at hrun3
      dsimp only at hrun3
      rw [hpc] at hrun3
      dsimp only at hrun3
      split at hrun3
      · injection hrun3 with h1 h2
        rw [← h2]
      · exact absurd (congrArg Prod.fst hrun3) (by simp)
  · intro oid
    unfold cancelOrder
    cases h : alookup oid s.orders with
    | none => rfl
    | some ord2 =>
      dsimp only
      split
      · rfl
      · dsimp only
        split <;> rfl
  · intro pair2 o2
    obtain ⟨pc2, hpc2⟩ := simulatePrice_snd s pair2 none o2
    unfold fetchTicker
    rw [hpc2]
  · intro pair2 tf since limit o2
    obtain ⟨pc2, hpc2⟩ := simulatePrice_snd s pair2 none o2
    unfold fetchOhlcv
    split
    · rfl
    · dsimp only
      rw [hpc2]


/-- A broker holding a position of 7 units of `X/INR` at cost basis 700. -/
def statePos : PaperState := { stateX with positions := [("X/INR", { amount := 7, cost := 700 })] }

/-- C10 witness: selling 5 of a 7-unit position leaves `{amount := 2, cost := 700}`. -/
theorem c10_witness :
    alookup "X/INR" ((createOrder statePos "X/INR" .market .sell 5 none oracle0).2).positions =
      some { amount := 7 - 5, cost := 700 } := by
  have hclass : InstrumentType.fromSymbol "X/INR" = .EQUITY := by decide
  have h1 : (createOrder statePos "X/INR" .market .sell 5 none oracle0).1 =
      .ok { id := 0, timestamp := 0, status := .closed, symbol := "X/INR", type := .market,
            side := .sell, price := 999 / 10, amount := 5, filled := 5, remaining := 0,
            cost := 999 / 2, feeCost := 999 / 4000 } := by
    norm_num +decide [createOrder, normalizeOrderAmount, hclass, InstrumentType.requiresLotSize,
      InstrumentType.isDerivative, simulatePrice, alookup, aset, executionPrice, applySlippage,
      calcCommission, statePos, stateX, initState, csvX, candle100, oracle0]
  have hrun : createOrder statePos "X/INR" .market .sell 5 none oracle0 =
      (.ok { id := 0, timestamp := 0, status := .closed, symbol := "X/INR", type := .market,
             side := .sell, price := 999 / 10, amount := 5, filled := 5, remaining := 0,
             cost := 999 / 2, feeCost := 999 / 4000 },
       (createOrder statePos "X/INR" .market .sell 5 none oracle0).2) := by
    rw [← h1]
  exact (c10_sell_fill_position_update statePos "X/INR" .market 5 none oracle0
    { amount := 7, cost := 700 } rfl _ _ hrun).1


/-! ## C9 — cancellation succeeds only on open orders -/

theorem alookup_aset_ne {α β : Type} [DecidableEq α] {k k' : α} (h : k ≠ k') (v : β) :
    ∀ l : List (α × β), alookup k (aset k' v l) = alookup k l := by
  intro l
  induction l with
  | nil => simp [aset, alookup, h]
  | cons p rest ih =>
    unfold aset
    by_cases h2 : k' = p.1
    · rw [if_pos h2]
      show alookup k ((k', v) :: rest) = alookup k (p :: rest)
      unfold alookup
      rw [if_neg h, if_neg (h2 ▸ h)]
    · rw [if_neg h2]
      show alookup k (p :: aset k' v rest) = alookup k (p :: rest)
      unfold alookup
      by_cases h3 : k = p.1
      · rw [if_pos h3, if_pos h3]
      · rw [if_neg h3, if_neg h3]; exact ih

/-- The broker states reachable from a fresh `Paperbroker` by the engine's
own operations. -/
inductive Reachable : PaperState → Prop where
  | init (ib sl cm : ℚ) (lots : LotTable) (csv : List (String × List Candle)) :
      Reachable (initState ib sl cm lots csv)
  | createStep {s : PaperState} (pair : String) (ot : OrderType) (side : Side)
      (amount : ℚ) (rate : Option ℚ) (o : Oracle) :
      Reachable s → Reachable (createOrder s pair ot side amount rate o).2
  | cancelStep {s : PaperState} (oid : ℕ) : Reachable s → Reachable (cancelOrder s oid).2
  | tickerStep {s : PaperState} (pair : String) (o : Oracle) :
      Reachable s → Reachable (fetchTicker s pair o).2
  | ohlcvStep {s : PaperState} (pair tf : String) (since limit : Option ℕ) (o : Oracle) :
      Reachable s → Reachable (fetchOhlcv s pair tf since limit o).2

/-- Every order in the ledger is closed (this simulator fills
synchronously, so no order is ever left open). -/
def allOrdersClosed (s : PaperState) : Prop :=
  ∀ oid ord, alookup oid s.orders = some ord → ord.status = .closed

theorem createOrder_ordersClosed {s : PaperState} (h : allOrdersClosed s)
    (pair : String) (ot : OrderType) (side : Side) (amount : ℚ) (rate : Option ℚ)
    (o : Oracle) : allOrdersClosed (createOrder s pair ot side amount rate o).2 := by
  obtain ⟨pc, hpc⟩ := simulatePrice_snd s pair none o
  unfold createOrder
  cases hn : normalizeOrderAmount s pair amount with
  | error e => exact h
  | ok amt =>
    dsimp only
    rw [hpc]
    split
    · exact h
    · simp only [reduceIte, reduceCtorEq, if_false, if_true]
      repeat' split
      all_goals
        intro oid ord hlk
        dsimp only at hlk
        by_cases ho : oid = s.nextId
        · subst ho
          rw [alookup_aset_self] at hlk
          injection hlk with h2
          rw [← h2]
        · rw [alookup_aset_ne ho] at hlk
          exact h _ _ hlk

/-- On a ledger where every order is closed — the only reachable kind —
`cancel_order` always raises `InvalidOrder` and returns the state
unchanged. -/
theorem cancelOrder_closed_eq {s : PaperState} (h : allOrdersClosed s) (oid : ℕ) :
    cancelOrder s oid = (.error .invalidOrder, s) := by
  unfold cancelOrder
  cases hlk : alookup oid s.orders with
  | none => rfl
  | some ord =>
    have hst : ord.status = .closed := h _ _ hlk
    dsimp only
    rw [if_pos hst]

theorem reachable_ordersClosed {s : PaperState} (h : Reachable s) : allOrdersClosed s := by
  induction h with
  | init ib sl cm lots csv =>
    intro oid ord hlk
    simp [initState, alookup] at hlk
  | createStep pair ot side amount rate o hr ih =>
    exact createOrder_ordersClosed ih pair ot side amount rate o
  | cancelStep oid hr ih =>
    rw [cancelOrder_closed_eq ih oid]
    exact ih
  | tickerStep pair o hr ih =>
    obtain ⟨pc2, hpc2⟩ := simulatePrice_snd _ pair none o
    unfold fetchTicker
    dsimp only
    rw [hpc2]
    exact ih
  | ohlcvStep pair tf since limit o hr ih =>
    unfold fetchOhlcv
    split
    · exact ih
    · dsimp only
      obtain ⟨pc2, hpc2⟩ := simulatePrice_snd _ pair none o
      rw [hpc2]
      exact ih

/-- C9 (confirmed): in every reachable broker state, `cancel_order` on any
target whose status is not open — an unknown id, or an already closed
order; synchronous fills mean no other kind of order ever exists — raises
`InvalidOrder` and returns with the balance and the entire order ledger
(indeed the whole state) unchanged. -/
theorem c9_cancel_only_open (s : PaperState) (hs : Reachable s) (oid : ℕ)
    (_hno : ∀ ord, alookup oid s.orders = some ord → ord.status ≠ .open) :
    cancelOrder s oid = (.error .invalidOrder, s) :=
  cancelOrder_closed_eq (reachable_ordersClosed hs) oid

/-- C9 witness: cancelling the (closed) order just created on a fresh broker
is rejected and changes nothing. -/
theorem c9_witness :
    cancelOrder (createOrder stateX "X/INR" .market .buy 10 none oracle0).2 0 =
      (.error .invalidOrder, (createOrder stateX "X/INR" .market .buy 10 none oracle0).2) := by
  have hr : Reachable (createOrder stateX "X/INR" .market .buy 10 none oracle0).2 :=
    Reachable.createStep "X/INR" .market .buy 10 none oracle0
      (Reachable.init 100000 (1 / 10) (5 / 100) defaultLotSizes csvX)
  refine c9_cancel_only_open _ hr 0 ?_
  intro ord hlk h
  have hcl := reachable_ordersClosed hr _ _ hlk
  exact absurd (hcl.symm.trans h) (by decide)


/-! ## C5 — lot-size normalization for derivative orders -/

/-- The largest multiple of `lot` not exceeding `amount` (for
`0 ≤ amount`). -/
def greatestLotMultiple (lot : ℕ) (amount : ℚ) : ℚ :=
  ((⌊amount / (lot : ℚ)⌋ : ℤ) : ℚ) * (lot : ℚ)

/-- `q` is a natural multiple of `lot`, at most `bound`, and at least every
other multiple of `lot` that is at most `bound`. -/
def isGreatestMultiple (lot : ℕ) (bound q : ℚ) : Prop :=
  (∃ k : ℕ, q = (k : ℚ) * (lot : ℚ)) ∧ q ≤ bound ∧
    ∀ k : ℕ, (k : ℚ) * (lot : ℚ) ≤ bound → (k : ℚ) * (lot : ℚ) ≤ q

theorem lotAdjust_eq_greatest (lot : ℕ) (amount : ℚ) (hl : 0 < lot) (ha : 0 ≤ amount) :
    (if pyFmod amount (lot : ℚ) ≠ 0 then ((pyInt (amount / (lot : ℚ)) : ℤ) : ℚ) * (lot : ℚ)
     else amount) = greatestLotMultiple lot amount := by
  have hlQ : (0 : ℚ) < (lot : ℚ) := by exact_mod_cast hl
  have hx : 0 ≤ amount / (lot : ℚ) := div_nonneg ha hlQ.le
  by_cases hf : pyFmod amount (lot : ℚ) ≠ 0
  · rw [if_pos hf]
    unfold pyInt greatestLotMultiple
    rw [if_pos hx]
  · rw [if_neg hf]
    have h0 : pyFmod amount (lot : ℚ) = 0 := not_ne_iff.mp hf
    unfold pyFmod at h0
    unfold greatestLotMultiple
    linarith [h0]

theorem greatestLotMultiple_isGreatest (lot : ℕ) (amount : ℚ) (hl : 0 < lot)
    (ha : 0 ≤ amount) : isGreatestMultiple lot amount (greatestLotMultiple lot amount) := by
  have hlQ : (0 : ℚ) < (lot : ℚ) := by exact_mod_cast hl
  have hx : 0 ≤ amount / (lot : ℚ) := div_nonneg ha hlQ.le
  have hfl : 0 ≤ ⌊amount / (lot : ℚ)⌋ := Int.floor_nonneg.mpr hx
  refine ⟨⟨(⌊amount / (lot : ℚ)⌋).toNat, ?_⟩, ?_, ?_⟩
  · have hc : ((⌊amount / (lot : ℚ)⌋ : ℤ) : ℚ) = (((⌊amount / (lot : ℚ)⌋).toNat : ℕ) : ℚ) := by
      norm_cast
      exact (Int.toNat_of_nonneg hfl).symm
    rw [greatestLotMultiple, hc]
  · unfold greatestLotMultiple
    calc ((⌊amount / (lot : ℚ)⌋ : ℤ) : ℚ) * (lot : ℚ)
        ≤ (amount / (lot : ℚ)) * (lot : ℚ) :=
          mul_le_mul_of_nonneg_right (Int.floor_le _) hlQ.le
      _ = amount := div_mul_cancel₀ amount (ne_of_gt hlQ)
  · intro k hk
    have h1 : (k : ℚ) ≤ amount / (lot : ℚ) := (le_div_iff₀ hlQ).mpr hk
    have h2 : (k : ℤ) ≤ ⌊amount / (lot : ℚ)⌋ := Int.le_floor.mpr (by exact_mod_cast h1)
    unfold greatestLotMultiple
    exact mul_le_mul_of_nonneg_right (by exact_mod_cast h2) hlQ.le

/-- For derivative symbols, the lot-normalization step of `create_order`
produces exactly the greatest lot multiple below the requested amount (or
rejects when it is zero). -/
theorem normalizeOrderAmount_spec (s : PaperState) (pair : String) (amount : ℚ)
    (hl : s.lotSizes.positive) (ha : 0 ≤ amount)
    (hreq : (InstrumentType.fromSymbol pair).requiresLotSize = true) :
    normalizeOrderAmount s pair amount =
      (if greatestLotMultiple (getLotSize s.lotSizes pair) amount = 0 then .error .invalidOrder
       else .ok (greatestLotMultiple (getLotSize s.lotSizes pair) amount)) := by
  unfold normalizeOrderAmount
  rw [hreq, if_pos rfl]
  dsimp only
  rw [lotAdjust_eq_greatest (getLotSize s.lotSizes pair) amount
    (getLotSize_pos s.lotSizes hl pair) ha]

/-- C5 (confirmed): for every order whose symbol the engine classifies as a
derivative (future or option), the quantity actually used by `create_order`
is the greatest multiple of the instrument's lot size not exceeding the
requested quantity (and `InvalidOrder` is raised when that is zero); for
every other symbol the quantity is used unchanged. Hypotheses: nonnegative
requested amount, positive lot table (true of the shipped table; a zero lot
size would crash the Python on division). -/
theorem c5_lot_normalization (s : PaperState) (pair : String) (ot : OrderType)
    (side : Side) (amount : ℚ) (rate : Option ℚ) (o : Oracle)
    (hl : s.lotSizes.positive) (ha : 0 ≤ amount) :
    ((InstrumentType.fromSymbol pair).requiresLotSize = true →
      (∀ ord s2, createOrder s pair ot side amount rate o = (.ok ord, s2) →
        ord.amount = greatestLotMultiple (getLotSize s.lotSizes pair) amount ∧
        isGreatestMultiple (getLotSize s.lotSizes pair) amount ord.amount) ∧
      (greatestLotMultiple (getLotSize s.lotSizes pair) amount = 0 →
        (createOrder s pair ot side amount rate o).1 = .error .invalidOrder)) ∧
    ((InstrumentType.fromSymbol pair).requiresLotSize = false →
      ∀ ord s2, createOrder s pair ot side amount rate o = (.ok ord, s2) →
        ord.amount = amount) := by
  constructor
  · intro hreq
    have hspec := normalizeOrderAmount_spec s pair amount hl ha hreq
    constructor
    · intro ord s2 hrun
      unfold createOrder at hrun
      rw [hspec] at hrun
      by_cases hz : greatestLotMultiple (getLotSize s.lotSizes pair) amount = 0
      · rw [if_pos hz] at hrun
        exact absurd (congrArg Prod.fst hrun) (by simp)
      · rw [if_neg hz] at hrun
        dsimp only at hrun
        split at hrun
        · exact absurd (congrArg Prod.fst hrun) (by simp)
        · injection hrun with h1 h2
          injection h1 with h1
          constructor
          · rw [← h1]
          · rw [← h1]
            exact greatestLotMultiple_isGreatest (getLotSize s.lotSizes pair) amount
              (getLotSize_pos s.lotSizes hl pair) ha
    · intro hz
      unfold createOrder
      rw [hspec, if_pos hz]
  · intro hreq ord s2 hrun
    unfold createOrder normalizeOrderAmount at hrun
    rw [hreq] at hrun
    simp only [Bool.false_eq_true, if_false] at hrun
    split at hrun
    · exact absurd (congrArg Prod.fst hrun) (by simp)
    · injection hrun with h1 h2
      injection h1 with h1
      rw [← h1]

/-- C5 witness: an option symbol with lot size 250 and a requested amount of
300 (the greatest multiple is 250), on the shipped lot table. -/
theorem c5_witness :
    defaultLotSizes.positive ∧ (0 : ℚ) ≤ 300 ∧
    (((InstrumentType.fromSymbol "RELIANCE1000CE").requiresLotSize = true →
      (∀ ord s2,
          createOrder stateX "RELIANCE1000CE" .market .buy 300 none oracle0 = (.ok ord, s2) →
        ord.amount = greatestLotMultiple (getLotSize stateX.lotSizes "RELIANCE1000CE") 300 ∧
        isGreatestMultiple (getLotSize stateX.lotSizes "RELIANCE1000CE") 300 ord.amount) ∧
      (greatestLotMultiple (getLotSize stateX.lotSizes "RELIANCE1000CE") 300 = 0 →
        (createOrder stateX "RELIANCE1000CE" .market .buy 300 none oracle0).1 =
          .error .invalidOrder)) ∧
    ((InstrumentType.fromSymbol "RELIANCE1000CE").requiresLotSize = false →
      ∀ ord s2,
          createOrder stateX "RELIANCE1000CE" .market .buy 300 none oracle0 = (.ok ord, s2) →
        ord.amount = 300)) :=
  ⟨defaultLotSizes_positive, by norm_num,
    c5_lot_normalization stateX "RELIANCE1000CE" .market .buy 300 none oracle0
      defaultLotSizes_positive (by norm_num)⟩


/-! ## C8 — rate limiter: five immediate calls under `perSecond = 3` -/

/-- The claim's configuration: 3 requests per second, nothing else. -/
def perSecond3 : RLConfig :=
  { requestsPerSecond := some 3, requestsPerMinute := none, requestsPerHour := none,
    requestsPerDay := none, minRequestInterval := 0 }

/-- Closed-form trace of 5 immediate calls starting at `t0`: the first three
record at `t0` with no wait, the 4th waits `1.01` (until the oldest request
ages out of the 1-second window, plus the 10 ms buffer) and records at
`t0 + 1.01`; by then the first three requests have aged out, so the 5th
records immediately with zero wait. -/
theorem runCalls5_perSecond3 (t0 : ℚ) :
    runCalls perSecond3 5 RLState.init t0 =
      ([(0, t0), (0, t0), (0, t0), (101 / 100, t0 + 101 / 100), (0, t0 + 101 / 100)],
       { requestTimes := [t0 + 101 / 100, t0 + 101 / 100], lastRequestTime := t0 + 101 / 100,
         totalRequests := 5, totalWaitTime := 101 / 100, rateLimitHits := 1 }) := by
  have hA : ¬ (t0 < t0 - (1 : ℚ)) := by linarith
  have hB : t0 - (1 : ℚ) ≤ t0 := by linarith
  have hC : t0 < t0 + 101 / 100 - (1 : ℚ) := by linarith
  have hD : ¬ (t0 + 101 / 100 < t0 + 101 / 100 - (1 : ℚ)) := by linarith
  have hE : t0 + 101 / 100 - (1 : ℚ) ≤ t0 + 101 / 100 := by linarith
  have e1 : waitIfNeeded perSecond3 RLState.init t0 =
      (0, { requestTimes := [t0], lastRequestTime := t0, totalRequests := 1,
            totalWaitTime := 0, rateLimitHits := 0 }) := by
    norm_num [waitIfNeeded, cleanupOldRequests, checkLimit, maxPeriod, optTruthy, perSecond3,
      RLState.init]
  have e2 : waitIfNeeded perSecond3
      { requestTimes := [t0], lastRequestTime := t0, totalRequests := 1,
        totalWaitTime := 0, rateLimitHits := 0 } t0 =
      (0, { requestTimes := [t0, t0], lastRequestTime := t0, totalRequests := 2,
            totalWaitTime := 0, rateLimitHits := 0 }) := by
    norm_num [waitIfNeeded, cleanupOldRequests, checkLimit, maxPeriod, optTruthy, perSecond3,
      hA, hB]
  have e3 : waitIfNeeded perSecond3
      { requestTimes := [t0, t0], lastRequestTime := t0, totalRequests := 2,
        totalWaitTime := 0, rateLimitHits := 0 } t0 =
      (0, { requestTimes := [t0, t0, t0], lastRequestTime := t0, totalRequests := 3,
            totalWaitTime := 0, rateLimitHits := 0 }) := by
    norm_num [waitIfNeeded, cleanupOldRequests, checkLimit, maxPeriod, optTruthy, perSecond3,
      hA, hB]
  have e4 : waitIfNeeded perSecond3
      { requestTimes := [t0, t0, t0], lastRequestTime := t0, totalRequests := 3,
        totalWaitTime := 0, rateLimitHits := 0 } t0 =
      (101 / 100, { requestTimes := [t0, t0, t0, t0 + 101 / 100],
                    lastRequestTime := t0 + 101 / 100, totalRequests := 4,
                    totalWaitTime := 101 / 100, rateLimitHits := 1 }) := by
    norm_num [waitIfNeeded, cleanupOldRequests, checkLimit, maxPeriod, optTruthy, perSecond3,
      hA, hB]
  have e5 : waitIfNeeded perSecond3
      { requestTimes := [t0, t0, t0, t0 + 101 / 100], lastRequestTime := t0 + 101 / 100,
        totalRequests := 4, totalWaitTime := 101 / 100, rateLimitHits := 1 }
      (t0 + 101 / 100) =
      (0, { requestTimes := [t0 + 101 / 100, t0 + 101 / 100],
            lastRequestTime := t0 + 101 / 100, totalRequests := 5,
            totalWaitTime := 101 / 100, rateLimitHits := 1 }) := by
    norm_num [waitIfNeeded, cleanupOldRequests, checkLimit, maxPeriod, optTruthy, perSecond3,
      hC, hD, hE]
  rw [show (5 : ℕ) = 4 + 1 from rfl, runCalls, e1]
  dsimp only
  rw [show (4 : ℕ) = 3 + 1 from rfl, runCalls, e2]
  dsimp only
  rw [show (3 : ℕ) = 2 + 1 from rfl, runCalls, e3]
  dsimp only
  rw [show (2 : ℕ) = 1 + 1 from rfl, runCalls, e4]
  dsimp only
  rw [show (1 : ℕ) = 0 + 1 from rfl, runCalls, e5]
  dsimp only
  rw [runCalls]


/-- C8 (counterexample): with `perSecond = 3` and five calls in immediate
succession starting at time 0, the wait times are `[0, 0, 0, 1.01, 0]`: the
5th call waits 0 — not ≥ 1/3 s, and not until the oldest request of its
1-second window (the 4th call's record at 1.01, which ages out at 2.01)
has aged out — because the 4th call's 1.01 s sleep already aged the first
three requests out of the window. -/
theorem c8_counterexample_fifth_call_no_wait :
    (runCalls perSecond3 5 RLState.init 0).1 =
      [(0, 0), (0, 0), (0, 0), (101 / 100, 101 / 100), (0, 101 / 100)] ∧
    ¬ ((1 : ℚ) / 3 ≤ 0) ∧
    (101 : ℚ) / 100 < 101 / 100 + 1 := by
  refine ⟨?_, by norm_num, by norm_num⟩
  have h := runCalls5_perSecond3 0
  rw [h]
  norm_num

/-- C8 (amended): with `perSecond = 3`, five calls in immediate succession
(each arriving when the previous returns) record the first three requests
immediately; the 4th call waits exactly 1.01 s — until the oldest request
in the 1-second window ages out, plus the 10 ms buffer, which is ≥ 1/3 s —
and the 5th call records with no wait, the earlier requests having aged out
during that sleep; and no sliding 1-second window ever contains more than
the configured 3 recorded timestamps. -/
theorem c8_rate_limiter_five_calls (t0 : ℚ) :
    (runCalls perSecond3 5 RLState.init t0).1 =
      [(0, t0), (0, t0), (0, t0), (101 / 100, t0 + 101 / 100), (0, t0 + 101 / 100)] ∧
    (1 : ℚ) / 3 ≤ 101 / 100 ∧
    (∀ τ : ℚ, (((runCalls perSecond3 5 RLState.init t0).1.map Prod.snd).filter
        (fun x => decide (τ - 1 < x ∧ x ≤ τ))).length ≤ 3) := by
  refine ⟨by rw [runCalls5_perSecond3 t0], by norm_num, ?_⟩
  intro τ
  rw [runCalls5_perSecond3 t0]
  by_cases h1 : τ - 1 < t0 ∧ t0 ≤ τ <;>
    by_cases h2 : τ - 1 < t0 + 101 / 100 ∧ t0 + 101 / 100 ≤ τ
  · exact absurd h2.2 (by linarith [h1.1])
  all_goals simp [List.filter, h1, h2]


/-! ## C6 — resampling: bucket aggregation and idempotence -/

/-- The bucket key of a candle. -/
def bucketKey (w : ℕ) (c : Candle) : ℕ := bucketStart w c.timestamp

/-- Collapse consecutive duplicates (for a sorted key list this is the list
of distinct bucket keys in ascending order). -/
def groupKeys : List ℕ → List ℕ
  | [] => []
  | [k] => [k]
  | k :: k2 :: ks => if k = k2 then groupKeys (k2 :: ks) else k :: groupKeys (k2 :: ks)

/-- The claim's aggregate of one nonempty bucket `c :: r`:
`open = first, high = max, low = min, close = last, volume = sum`, stamped
with the bucket's left edge. -/
def aggRun (w : ℕ) (c : Candle) (r : List Candle) : Candle :=
  { timestamp := bucketStart w c.timestamp,
    open_ := c.open_,
    high := r.foldl (fun a d => max a d.high) c.high,
    low := r.foldl (fun a d => min a d.low) c.low,
    close := (r.getLastD c).close,
    volume := r.foldl (fun a d => a + d.volume) c.volume }

/-- The claim's description of resampling, stated independently of the
implementation: one aggregate per distinct bucket key, each computed from
the candles belonging to that bucket; keys of empty buckets never occur, so
empty buckets are dropped. -/
def resampleByBuckets (w : ℕ) (l : List Candle) : List Candle :=
  (groupKeys (l.map (bucketKey w))).map (fun k =>
    match l.filter (fun c => decide (bucketKey w c = k)) with
    | [] => { timestamp := k, open_ := 0, high := 0, low := 0, close := 0, volume := 0 }
    | c :: r => aggRun w c r)

theorem foldl_mergeAgg (r : List Candle) (acc : Candle) :
    List.foldl mergeAgg acc r =
      { timestamp := acc.timestamp,
        open_ := acc.open_,
        high := r.foldl (fun a d => max a d.high) acc.high,
        low := r.foldl (fun a d => min a d.low) acc.low,
        close := (r.getLastD acc).close,
        volume := r.foldl (fun a d => a + d.volume) acc.volume } := by
  induction r generalizing acc with
  | nil => rfl
  | cons d r ih =>
    show List.foldl mergeAgg (mergeAgg acc d) r = _
    rw [ih]
    cases r with
    | nil => rfl
    | cons d2 r2 => rfl

theorem foldl_mergeAgg_initAgg (w : ℕ) (c : Candle) (r : List Candle) :
    List.foldl mergeAgg (initAgg w c) r = aggRun w c r := by
  rw [foldl_mergeAgg]
  cases r with
  | nil => rfl
  | cons d2 r2 => rfl

theorem foldl_mergeAgg_timestamp (w : ℕ) (c : Candle) (r : List Candle) :
    (List.foldl mergeAgg (initAgg w c) r).timestamp = bucketKey w c := by
  rw [foldl_mergeAgg]; rfl

theorem groupKeys_const (k : ℕ) :
    ∀ ks : List ℕ, (∀ x ∈ ks, x = k) → groupKeys (k :: ks) = [k] := by
  intro ks
  induction ks with
  | nil => intro _; rfl
  | cons k2 ks ih =>
    intro h
    have hk2 : k2 = k := h k2 (List.mem_cons_self _ _)
    subst hk2
    show (if k2 = k2 then groupKeys (k2 :: ks) else k2 :: groupKeys (k2 :: ks)) = [k2]
    rw [if_pos rfl]
    exact ih (fun x hx => h x (List.mem_cons_of_mem _ hx))

theorem groupKeys_run (k k2 : ℕ) (rest : List ℕ) (hne : k2 ≠ k) :
    ∀ ks : List ℕ, (∀ x ∈ ks, x = k) →
      groupKeys (k :: (ks ++ k2 :: rest)) = k :: groupKeys (k2 :: rest) := by
  intro ks
  induction ks with
  | nil =>
    intro _
    show (if k = k2 then _ else k :: groupKeys (k2 :: rest)) = _
    rw [if_neg (fun h => hne h.symm)]
  | cons k3 ks ih =>
    intro h
    have hk3 : k3 = k := h k3 (List.mem_cons_self _ _)
    subst hk3
    show (if k3 = k3 then groupKeys (k3 :: (ks ++ k2 :: rest))
          else k3 :: groupKeys (k3 :: (ks ++ k2 :: rest))) = _
    rw [if_pos rfl]
    exact ih (fun x hx => h x (List.mem_cons_of_mem _ hx))

theorem mem_groupKeys {k : ℕ} : ∀ {ks : List ℕ}, k ∈ groupKeys ks → k ∈ ks := by
  intro ks
  induction ks with
  | nil => intro h; exact absurd h (by simp [groupKeys])
  | cons k2 ks ih =>
    intro h
    cases ks with
    | nil => exact h
    | cons k3 ks2 =>
      by_cases he : k2 = k3
      · rw [show groupKeys (k2 :: k3 :: ks2) = groupKeys (k3 :: ks2) from by
          simp only [groupKeys]; rw [if_pos he]] at h
        exact List.mem_cons_of_mem _ (ih h)
      · rw [show groupKeys (k2 :: k3 :: ks2) = k2 :: groupKeys (k3 :: ks2) from by
          simp only [groupKeys]; rw [if_neg he]] at h
        rcases List.mem_cons.mp h with rfl | h2
        · exact List.mem_cons_self _ _
        · exact List.mem_cons_of_mem _ (ih h2)

theorem bucketStart_mono (w : ℕ) {a b : ℕ} (h : a ≤ b) : bucketStart w a ≤ bucketStart w b :=
  Nat.mul_le_mul_left w (Nat.div_le_div_right h)


theorem resampleAux_spec (w : ℕ) :
    ∀ (l : List Candle) (c : Candle) (r : List Candle),
      (∀ d ∈ r, bucketKey w d = bucketKey w c) →
      List.Chain' tsLe (c :: (r ++ l)) →
      resampleAux w (List.foldl mergeAgg (initAgg w c) r) l =
        resampleByBuckets w (c :: (r ++ l)) := by
  intro l
  induction l with
  | nil =>
    intro c r hr _
    show [List.foldl mergeAgg (initAgg w c) r] = _
    rw [foldl_mergeAgg_initAgg, List.append_nil]
    unfold resampleByBuckets
    have hkeys : ∀ x ∈ r.map (bucketKey w), x = bucketKey w c := by
      intro x hx
      obtain ⟨d, hd, rfl⟩ := List.mem_map.mp hx
      exact hr d hd
    rw [show (c :: r).map (bucketKey w) = bucketKey w c :: r.map (bucketKey w) from rfl,
      groupKeys_const _ _ hkeys]
    have hfil : (c :: r).filter (fun x => decide (bucketKey w x = bucketKey w c)) = c :: r := by
      apply List.filter_eq_self.mpr
      intro a ha
      rcases List.mem_cons.mp ha with rfl | ha2
      · simp
      · simp [hr a ha2]
    simp only [List.map]
    rw [hfil]
  | cons d l ih =>
    intro c r hr hch
    by_cases hd : bucketKey w d = bucketKey w c
    · have hstep : resampleAux w (List.foldl mergeAgg (initAgg w c) r) (d :: l) =
          resampleAux w (List.foldl mergeAgg (initAgg w c) (r ++ [d])) l := by
        simp only [resampleAux]
        rw [if_pos (by rw [foldl_mergeAgg_timestamp]; exact hd), List.foldl_append]
        rfl
      rw [hstep]
      have hr2 : ∀ x ∈ r ++ [d], bucketKey w x = bucketKey w c := by
        intro x hx
        rcases List.mem_append.mp hx with h1 | h1
        · exact hr x h1
        · rw [List.mem_singleton.mp h1]; exact hd
      have hch2 : List.Chain' tsLe (c :: ((r ++ [d]) ++ l)) := by
        have he : c :: ((r ++ [d]) ++ l) = c :: (r ++ d :: l) := by simp
        rw [he]; exact hch
      rw [ih c (r ++ [d]) hr2 hch2]
      congr 1
      simp
    · -- `d` starts a new bucket
      have hpw : List.Pairwise tsLe (c :: (r ++ d :: l)) := List.chain'_iff_pairwise.mp hch
      have hcle : ∀ e ∈ r ++ d :: l, tsLe c e := (List.pairwise_cons.mp hpw).1
      have hdl : List.Pairwise tsLe (d :: l) := by
        refine List.Pairwise.sublist ?_ (List.pairwise_cons.mp hpw).2
        exact (List.suffix_append r (d :: l)).sublist
      have hdle : ∀ e ∈ l, tsLe d e := (List.pairwise_cons.mp hdl).1
      have hcd : bucketKey w c < bucketKey w d := by
        have h1 : bucketKey w c ≤ bucketKey w d :=
          bucketStart_mono w (hcle d (List.mem_append_right r (List.mem_cons_self d l)))
        exact lt_of_le_of_ne h1 (fun h => hd h.symm)
      have hlt : ∀ e ∈ d :: l, bucketKey w c < bucketKey w e := by
        intro e he
        rcases List.mem_cons.mp he with rfl | he2
        · exact hcd
        · exact lt_of_lt_of_le hcd (bucketStart_mono w (hdle e he2))
      have hstep : resampleAux w (List.foldl mergeAgg (initAgg w c) r) (d :: l) =
          List.foldl mergeAgg (initAgg w c) r :: resampleAux w (initAgg w d) l := by
        simp only [resampleAux]
        rw [if_neg (by rw [foldl_mergeAgg_timestamp]; exact hd)]
      have hch3 : List.Chain' tsLe (d :: (([] : List Candle) ++ l)) := by
        refine List.Chain'.suffix hch ?_
        exact ((List.suffix_append r (d :: l)).trans (List.suffix_cons c (r ++ d :: l)))
      rw [hstep, foldl_mergeAgg_initAgg,
        show resampleAux w (initAgg w d) l =
          resampleAux w (List.foldl mergeAgg (initAgg w d) []) l from rfl,
        ih d [] (by simp) hch3]
      -- assemble the bucket decomposition of the right-hand side
      unfold resampleByBuckets
      have hmapkeys : (c :: (r ++ d :: l)).map (bucketKey w) =
          bucketKey w c :: (r.map (bucketKey w) ++ bucketKey w d :: l.map (bucketKey w)) := by
        simp
      have hkeysr : ∀ x ∈ r.map (bucketKey w), x = bucketKey w c := by
        intro x hx
        obtain ⟨e, he, rfl⟩ := List.mem_map.mp hx
        exact hr e he
      rw [hmapkeys, groupKeys_run (bucketKey w c) (bucketKey w d) (l.map (bucketKey w))
        (ne_of_gt hcd) _ hkeysr]
      simp only [List.map_cons]
      congr 1
      · -- the head bucket of the combined list is exactly `c :: r`
        have hfil : (c :: (r ++ d :: l)).filter
            (fun x => decide (bucketKey w x = bucketKey w c)) = c :: r := by
          rw [List.filter_cons, if_pos (by simp)]
          rw [List.filter_append]
          rw [List.filter_eq_self.mpr (fun a ha => by simp [hr a ha])]
          rw [List.filter_eq_nil_iff.mpr (fun a ha => by simp [ne_of_gt (hlt a ha)])]
          rw [List.append_nil]
        rw [hfil]
      · -- every later bucket ignores `c :: r` entirely
        rw [show (d :: (([] : List Candle) ++ l)) = d :: l from by simp]
        apply List.map_congr_left
        intro k hk
        have hkmem : k ∈ bucketKey w d :: l.map (bucketKey w) := mem_groupKeys hk
        have hklt : bucketKey w c < k := by
          rcases List.mem_cons.mp hkmem with rfl | hk2
          · exact hcd
          · obtain ⟨e, he, rfl⟩ := List.mem_map.mp hk2
            exact hlt e (List.mem_cons_of_mem d he)
        have hfil2 : (c :: (r ++ d :: l)).filter (fun x => decide (bucketKey w x = k)) =
            (d :: l).filter (fun x => decide (bucketKey w x = k)) := by
          rw [List.filter_cons, if_neg (by simp [ne_of_lt hklt])]
          rw [List.filter_append]
          rw [List.filter_eq_nil_iff.mpr
            (fun a ha => by simp [hr a ha, ne_of_lt hklt])]
          rfl
        rw [hfil2]


/-- Strict time-ascending order on candles. -/
def tsLt (a b : Candle) : Prop := a.timestamp < b.timestamp

theorem resampleCandles_eq_buckets (w : ℕ) (l : List Candle)
    (h : List.Chain' tsLe l) : resampleCandles w l = resampleByBuckets w l := by
  cases l with
  | nil => rfl
  | cons c cs =>
    show resampleAux w (initAgg w c) cs = _
    rw [show initAgg w c = List.foldl mergeAgg (initAgg w c) [] from rfl]
    have hc : List.Chain' tsLe (c :: ([] ++ cs)) := by simpa using h
    simpa using resampleAux_spec w cs c [] (by simp) hc

theorem initAgg_aligned {w : ℕ} {c : Candle} (h : w ∣ c.timestamp) : initAgg w c = c := by
  unfold initAgg
  rw [show bucketStart w c.timestamp = c.timestamp from Nat.mul_div_cancel' h]

theorem resampleAux_aligned (w : ℕ) :
    ∀ (l : List Candle) (c : Candle), w ∣ c.timestamp → (∀ d ∈ l, w ∣ d.timestamp) →
      List.Chain' tsLt (c :: l) →
      resampleAux w (initAgg w c) l = c :: l := by
  intro l
  induction l with
  | nil =>
    intro c hc _ _
    show [initAgg w c] = [c]
    rw [initAgg_aligned hc]
  | cons d l ih =>
    intro c hc hl hch
    have hd : w ∣ d.timestamp := hl d (List.mem_cons_self _ _)
    have hcd : c.timestamp < d.timestamp := (List.chain'_cons.mp hch).1
    have h1 : bucketStart w d.timestamp = d.timestamp := Nat.mul_div_cancel' hd
    have h2 : bucketStart w c.timestamp = c.timestamp := Nat.mul_div_cancel' hc
    have hkey : ¬ bucketStart w d.timestamp = (initAgg w c).timestamp := by
      rw [show (initAgg w c).timestamp = bucketStart w c.timestamp from rfl, h1, h2]
      exact ne_of_gt hcd
    show resampleAux w (initAgg w c) (d :: l) = c :: d :: l
    simp only [resampleAux]
    rw [if_neg hkey, initAgg_aligned hc]
    congr 1
    exact ih d hd (fun e he => hl e (List.mem_cons_of_mem _ he)) (List.chain'_cons.mp hch).2

theorem resampleCandles_aligned (w : ℕ) (l : List Candle)
    (hal : ∀ d ∈ l, w ∣ d.timestamp) (hch : List.Chain' tsLt l) :
    resampleCandles w l = l := by
  cases l with
  | nil => rfl
  | cons c cs =>
    exact resampleAux_aligned w cs c (hal c (List.mem_cons_self _ _))
      (fun e he => hal e (List.mem_cons_of_mem _ he)) hch

theorem resampleAux_aligned_out (w : ℕ) :
    ∀ (l : List Candle) (acc : Candle), w ∣ acc.timestamp →
      ∀ x ∈ resampleAux w acc l, w ∣ x.timestamp := by
  intro l
  induction l with
  | nil =>
    intro acc hacc x hx
    rw [List.mem_singleton.mp hx]
    exact hacc
  | cons d l ih =>
    intro acc hacc x hx
    simp only [resampleAux] at hx
    split at hx
    · exact ih (mergeAgg acc d) hacc x hx
    · rcases List.mem_cons.mp hx with rfl | hx2
      · exact hacc
      · exact ih (initAgg w d) ⟨d.timestamp / w, rfl⟩ x hx2

theorem resampleAux_chain (w : ℕ) :
    ∀ (l : List Candle) (acc : Candle),
      (∀ e ∈ l, acc.timestamp ≤ bucketKey w e) →
      List.Chain' tsLe l →
      List.Chain' tsLt (resampleAux w acc l) ∧
        (∀ hd ∈ (resampleAux w acc l).head?, hd.timestamp = acc.timestamp) := by
  intro l
  induction l with
  | nil =>
    intro acc _ _
    refine ⟨List.chain'_singleton _, ?_⟩
    intro hd h
    rw [Option.mem_def] at h
    injection h with h
    rw [← h]
  | cons d l ih =>
    intro acc hub hch
    have hub2 : ∀ e ∈ l, acc.timestamp ≤ bucketKey w e :=
      fun e he => hub e (List.mem_cons_of_mem _ he)
    simp only [resampleAux]
    split
    · next hk =>
      exact ih (mergeAgg acc d) hub2 hch.tail
    · next hk =>
      have hdub : ∀ e ∈ l, (initAgg w d).timestamp ≤ bucketKey w e := by
        intro e he
        show bucketStart w d.timestamp ≤ _
        have hpw := List.chain'_iff_pairwise.mp hch
        exact bucketStart_mono w ((List.pairwise_cons.mp hpw).1 e he)
      obtain ⟨hchain, hhead⟩ := ih (initAgg w d) hdub hch.tail
      have haccd : acc.timestamp < bucketKey w d :=
        lt_of_le_of_ne (hub d (List.mem_cons_self _ _)) (fun h => hk h.symm)
      refine ⟨List.chain'_cons'.mpr ⟨?_, hchain⟩, ?_⟩
      · intro hd2 hhd2
        have := hhead hd2 hhd2
        show acc.timestamp < hd2.timestamp
        rw [this]
        exact haccd
      · intro hd2 hhd2
        rw [Option.mem_def] at hhd2
        injection hhd2 with h
        rw [← h]

theorem resampleCandles_idem (w : ℕ) (l : List Candle) (h : List.Chain' tsLe l) :
    resampleCandles w (resampleCandles w l) = resampleCandles w l := by
  cases l with
  | nil => rfl
  | cons c cs =>
    show resampleCandles w (resampleAux w (initAgg w c) cs) = resampleAux w (initAgg w c) cs
    have hpw : List.Pairwise tsLe (c :: cs) := List.chain'_iff_pairwise.mp h
    have hub : ∀ e ∈ cs, (initAgg w c).timestamp ≤ bucketKey w e := by
      intro e he
      show bucketStart w c.timestamp ≤ _
      exact bucketStart_mono w ((List.pairwise_cons.mp hpw).1 e he)
    have hchain := (resampleAux_chain w cs (initAgg w c) hub h.tail).1
    have hal : ∀ x ∈ resampleAux w (initAgg w c) cs, w ∣ x.timestamp :=
      resampleAux_aligned_out w cs (initAgg w c) ⟨c.timestamp / w, rfl⟩
    exact resampleCandles_aligned w _ hal hchain

/-- C6 (confirmed): on a time-ascending series, `_resample_candles` with any
bucket width aggregates exactly the nonempty fixed-width epoch-aligned
buckets (`open = first, high = max, low = min, close = last, volume = sum`,
empty buckets dropped); re-aggregating its own output with the same width
changes nothing; and resampling a strictly-ascending minute-aligned series
at the 1-minute width returns the series unchanged. -/
theorem c6_resampling_buckets_and_idempotence (w : ℕ) (l : List Candle)
    (hsorted : List.Chain' tsLe l) :
    resampleCandles w l = resampleByBuckets w l ∧
    resampleCandles w (resampleCandles w l) = resampleCandles w l ∧
    ((∀ c ∈ l, 60000 ∣ c.timestamp) → List.Chain' tsLt l →
      resampleCandles (freqMinutes "1m" * 60000) l = l) :=
  ⟨resampleCandles_eq_buckets w l hsorted,
   resampleCandles_idem w l hsorted,
   fun hal hst => resampleCandles_aligned 60000 l hal hst⟩


/-- A small concrete minute-aligned two-candle series. -/
def candlesW : List Candle :=
  [candle100, { timestamp := 120000, open_ := 4, high := 6, low := 2, close := 5, volume := 1 }]

/-- C6 witness: the two-candle series, resampled at the 5-minute width. -/
theorem c6_witness :
    resampleCandles 300000 candlesW = resampleByBuckets 300000 candlesW ∧
    resampleCandles 300000 (resampleCandles 300000 candlesW) =
      resampleCandles 300000 candlesW ∧
    ((∀ c ∈ candlesW, 60000 ∣ c.timestamp) → List.Chain' tsLt candlesW →
      resampleCandles (freqMinutes "1m" * 60000) candlesW = candlesW) :=
  c6_resampling_buckets_and_idempotence 300000 candlesW
    (by norm_num [candlesW, candle100, List.chain'_cons, List.chain'_singleton, tsLe])


/-! ## C7 — OHLCV slicing from loaded historical data -/

/-- C7 (confirmed): for a pair with a loaded (time-ascending) series, at the
1m base resolution `fetch_ohlcv` returns — with a truthy since-timestamp —
only candles of the series with timestamp ≥ since, in ascending order, as
many as are available up to the effective limit; with no since-timestamp it
returns a suffix (the most recent candles) of length `min limit len`; and at
any other resolution it returns exactly the resampling of that base
1m slice. -/
theorem c7_fetch_ohlcv_csv_slicing (s : PaperState) (pair : String) (df : List Candle)
    (tf : String) (since limit : Option ℕ) (o : Oracle)
    (hcsv : s.useCsvData = true) (hdf : alookup pair s.csvData = some df)
    (hsorted : List.Chain' tsLe df) :
    (tf = "1m" → sinceTruthy since = true →
       (∀ c ∈ (fetchOhlcv s pair tf since limit o).1, c ∈ df ∧ since.getD 0 ≤ c.timestamp) ∧
       List.Chain' tsLe (fetchOhlcv s pair tf since limit o).1 ∧
       (fetchOhlcv s pair tf since limit o).1.length =
         min (effLimit limit)
           ((df.filter (fun c => decide (since.getD 0 ≤ c.timestamp))).length)) ∧
    (tf = "1m" → sinceTruthy since = false →
       (fetchOhlcv s pair tf since limit o).1 <:+ df ∧
       (fetchOhlcv s pair tf since limit o).1.length = min (effLimit limit) df.length) ∧
    (tf ≠ "1m" →
       (fetchOhlcv s pair tf since limit o).1 =
         resampleCandles (freqMinutes tf * 60000)
           (if sinceTruthy since then
              (df.filter (fun c => decide (since.getD 0 ≤ c.timestamp))).take (effLimit limit)
            else df.drop (df.length - effLimit limit))) := by
  have hbranch : (fetchOhlcv s pair tf since limit o).1 =
      fetchOhlcvFromCsv s pair tf since limit := by
    unfold fetchOhlcv
    rw [if_pos ⟨hcsv, by rw [hdf]; rfl⟩]
  have hbody : fetchOhlcvFromCsv s pair tf since limit =
      (if tf ≠ "1m" then
        resampleCandles (freqMinutes tf * 60000)
          (if sinceTruthy since then
             (df.filter (fun c => decide (since.getD 0 ≤ c.timestamp))).take (effLimit limit)
           else df.drop (df.length - effLimit limit))
       else
        (if sinceTruthy since then
           (df.filter (fun c => decide (since.getD 0 ≤ c.timestamp))).take (effLimit limit)
         else df.drop (df.length - effLimit limit))) := by
    unfold fetchOhlcvFromCsv
    rw [hdf]
  refine ⟨?_, ?_, ?_⟩
  · intro htf hst
    rw [hbranch, hbody, htf, if_neg (by simp), if_pos hst]
    refine ⟨?_, ?_, ?_⟩
    · intro c hc
      have hcf := List.mem_of_mem_take hc
      have := List.mem_filter.mp hcf
      exact ⟨this.1, of_decide_eq_true this.2⟩
    · have hsub : List.Sublist
          ((df.filter (fun c => decide (since.getD 0 ≤ c.timestamp))).take (effLimit limit)) df :=
        (List.take_sublist _ _).trans (List.filter_sublist df)
      exact List.chain'_iff_pairwise.mpr
        (((List.chain'_iff_pairwise).mp hsorted).sublist hsub)
    · exact List.length_take _ _
  · intro htf hst
    rw [hbranch, hbody, htf, if_neg (by simp), if_neg (by rw [hst]; simp)]
    refine ⟨List.drop_suffix _ _, ?_⟩
    rw [List.length_drop]
    omega
  · intro htf
    rw [hbranch, hbody, if_pos htf]

/-- C7 witness: the loaded one-candle `X/INR` series queried at 5m with a
truthy since-timestamp. -/
theorem c7_witness :
    ("5m" = "1m" → sinceTruthy (some 1) = true →
       (∀ c ∈ (fetchOhlcv stateX "X/INR" "5m" (some 1) (some 2) oracle0).1,
          c ∈ [candle100] ∧ (some 1).getD 0 ≤ c.timestamp) ∧
       List.Chain' tsLe (fetchOhlcv stateX "X/INR" "5m" (some 1) (some 2) oracle0).1 ∧
       (fetchOhlcv stateX "X/INR" "5m" (some 1) (some 2) oracle0).1.length =
         min (effLimit (some 2))
           (([candle100].filter (fun c => decide ((some 1).getD 0 ≤ c.timestamp))).length)) ∧
    ("5m" = "1m" → sinceTruthy (some 1) = false →
       (fetchOhlcv stateX "X/INR" "5m" (some 1) (some 2) oracle0).1 <:+ [candle100] ∧
       (fetchOhlcv stateX "X/INR" "5m" (some 1) (some 2) oracle0).1.length =
         min (effLimit (some 2)) [candle100].length) ∧
    ("5m" ≠ "1m" →
       (fetchOhlcv stateX "X/INR" "5m" (some 1) (some 2) oracle0).1 =
         resampleCandles (freqMinutes "5m" * 60000)
           (if sinceTruthy (some 1) then
              ([candle100].filter (fun c => decide ((some 1).getD 0 ≤ c.timestamp))).take
                (effLimit (some 2))
            else [candle100].drop ([candle100].length - effLimit (some 2)))) :=
  c7_fetch_ohlcv_csv_slicing stateX "X/INR" [candle100] "5m" (some 1) (some 2) oracle0
    rfl rfl (by simp)

end Freqtrade
